import Mathlib

/-!
Shallow embedding of the Tab Whisperer background worker (background.js):
tab summarization with its fallback chain, summary grouping (AI path and
heuristic keyword fallback), tab filtering in processTabsAndStore, and the
snapshot / saved-session storage operations.

External effects are made explicit parameters: the AI capabilities become
optional abstract outcomes, the clock becomes a numeric argument, and
chrome.storage.local becomes an explicit Storage state threaded through the
operations.
-/

namespace TabWhisperer

/-- JS string-or-default `x || d`, where `x : Option String` models a possibly
undefined string and the empty string is falsy. -/
def jsOr (x : Option String) (d : String) : String :=
  match x with
  | some s => if s = "" then d else s
  | none => d

/-- A summary record as pushed by `processTabsAndStore`, and as synthesized in
the AI grouping path for unmatched items (`tabId` null, `windowId` absent). -/
structure SummaryRecord where
  tabId : Option Nat
  windowId : Option Nat
  url : String
  title : String
  favIconUrl : String
  summary : String
deriving DecidableEq

/-- A browser tab as returned by `chrome.tabs.query`; `Option` fields model
possibly undefined properties. -/
structure Tab where
  id : Option Nat
  windowId : Option Nat
  url : Option String
  pendingUrl : Option String
  title : Option String
  favIconUrl : Option String
deriving DecidableEq

/-! ### Keyword matching (the regex tests of the heuristic fallback)

Each regex in the fallback is a plain alternation of literal words, so the
test is exactly: some literal is a substring of the text. -/

/-- `hasInfix pat l` decides whether `pat` occurs as a contiguous substring of
`l`. -/
def hasInfix (pat : List Char) : List Char → Bool
  | [] => pat.isEmpty
  | c :: rest => pat.isPrefixOf (c :: rest) || hasInfix pat rest

/-- `containsKw text kw`: the keyword occurs in the text. -/
def containsKw (text kw : String) : Bool :=
  hasInfix kw.data text.data

/-- Some keyword of the list occurs in the text. -/
def anyKw (kws : List String) (text : String) : Bool :=
  kws.any (fun k => containsKw text k)

/-- Literals of `/(paper|research|arxiv|wiki|docs|guide)/`. -/
def researchKw : List String := ["paper", "research", "arxiv", "wiki", "docs", "guide"]

/-- Literals of `/(amazon|ebay|shop|price|deal|buy|cart)/`. -/
def shoppingKw : List String := ["amazon", "ebay", "shop", "price", "deal", "buy", "cart"]

/-- Literals of `/(youtube|netflix|spotify|game|movie|music)/`. -/
def entertainmentKw : List String := ["youtube", "netflix", "spotify", "game", "movie", "music"]

/-- Literals of `/(jira|github|gitlab|slack|notion|figma|drive)/`. -/
def workKw : List String := ["jira", "github", "gitlab", "slack", "notion", "figma", "drive"]

/-- ASCII lowercasing of a string, character by character (the keyword
literals are all ASCII, so this matches `toLowerCase` on them). -/
def lowerStr (s : String) : String :=
  ⟨s.data.map Char.toLower⟩

/-- The text the fallback matches on: lowercased `title summary`. -/
def matchText (item : SummaryRecord) : String :=
  lowerStr (item.title ++ " " ++ item.summary)

/-- The five fixed fallback categories. -/
inductive Category where
  | research
  | shopping
  | entertainment
  | work
  | other
deriving DecidableEq

/-- Display name of a fallback category (the object keys of the source). -/
def catName : Category → String
  | .research => "Research"
  | .shopping => "Shopping"
  | .entertainment => "Entertainment"
  | .work => "Work"
  | .other => "Other"

/-- The fixed key order of the fallback groups object. -/
def categoryOrder : List Category :=
  [.research, .shopping, .entertainment, .work, .other]

/-- First-match-wins classification of one record, in the condition order of
the if-else chain of the fallback loop. -/
def catOf (item : SummaryRecord) : Category :=
  let text := matchText item
  if anyKw researchKw text then .research
  else if anyKw shoppingKw text then .shopping
  else if anyKw entertainmentKw text then .entertainment
  else if anyKw workKw text then .work
  else .other

/-- The mutable `groups` object of the heuristic fallback loop. -/
structure HGroups where
  research : List SummaryRecord
  shopping : List SummaryRecord
  entertainment : List SummaryRecord
  work : List SummaryRecord
  other : List SummaryRecord
deriving DecidableEq

/-- One iteration of the fallback loop: push the item onto the group of the
first matching regex, `Other` as catch-all. -/
def hStep (g : HGroups) (item : SummaryRecord) : HGroups :=
  let text := matchText item
  if anyKw researchKw text then { g with research := g.research ++ [item] }
  else if anyKw shoppingKw text then { g with shopping := g.shopping ++ [item] }
  else if anyKw entertainmentKw text then { g with entertainment := g.entertainment ++ [item] }
  else if anyKw workKw text then { g with work := g.work ++ [item] }
  else { g with other := g.other ++ [item] }

/-- The fallback loop over all summaries, starting from empty groups. -/
def heuristicGroups (summaries : List SummaryRecord) : HGroups :=
  summaries.foldl hStep ⟨[], [], [], [], []⟩

/-- `Object.entries(groups)` of the fallback, in insertion order. -/
def heuristicEntries (summaries : List SummaryRecord) : List (String × List SummaryRecord) :=
  let g := heuristicGroups summaries
  [("Research", g.research), ("Shopping", g.shopping),
   ("Entertainment", g.entertainment), ("Work", g.work), ("Other", g.other)]

/-- The heuristic fallback result: entries with empty lists filtered out
(`v.length` truthiness). -/
def heuristicFallback (summaries : List SummaryRecord) : List (String × List SummaryRecord) :=
  (heuristicEntries summaries).filter (fun p => p.2.length != 0)

/-! ### AI grouping path -/

/-- An item of an AI-returned group array; `Option` fields model properties
that may be absent from the JSON object. -/
structure AIItem where
  title : Option String
  summary : Option String
  url : Option String
deriving DecidableEq

/-- The value of one key of `parsed.groups`: a JSON array of items, or any
non-array value (skipped by the `Array.isArray` check). -/
inductive AIEntryVal where
  | arr (items : List AIItem)
  | nonArray
deriving DecidableEq

/-- Outcome of the AI grouping interaction, after prompting and JSON parsing:
an exception anywhere in the try block, a parse result without a usable
`groups` object, or a `groups` object with the given entries. -/
inductive AIResponse where
  | failure
  | noGroups
  | withGroups (entries : List (String × AIEntryVal))
deriving DecidableEq

/-- `s.url === item.url || s.title === item.title`: comparison with an absent
item property is false. -/
def matchPred (item : AIItem) (s : SummaryRecord) : Bool :=
  (match item.url with | some u => s.url == u | none => false)
  || (match item.title with | some t => s.title == t | none => false)

/-- Re-link one AI item to the first matching input record; an unmatched item
becomes a placeholder record with null `tabId`. -/
def relink (summaries : List SummaryRecord) (item : AIItem) : SummaryRecord :=
  match summaries.find? (matchPred item) with
  | some m => m
  | none =>
    { tabId := none, windowId := none, url := jsOr item.url "",
      title := jsOr item.title "", favIconUrl := "", summary := jsOr item.summary "" }

/-- Build the `cleaned` object: keep array-valued entries, mapping each item
back through `relink`. -/
def aiClean (summaries : List SummaryRecord) : List (String × AIEntryVal) → List (String × List SummaryRecord)
  | [] => []
  | (k, AIEntryVal.arr items) :: rest => (k, items.map (relink summaries)) :: aiClean summaries rest
  | (_, AIEntryVal.nonArray) :: rest => aiClean summaries rest

/-- `groupSummaries`: the AI path when a language model is present and the
summary list is non-empty, falling back to the keyword heuristic on failure,
missing `groups`, or a `cleaned` object with no keys. -/
def groupSummaries (summaries : List SummaryRecord) (languageModel : Option AIResponse) :
    List (String × List SummaryRecord) :=
  match languageModel with
  | none => heuristicFallback summaries
  | some resp =>
    if summaries.length = 0 then heuristicFallback summaries
    else
      match resp with
      | .failure => heuristicFallback summaries
      | .noGroups => heuristicFallback summaries
      | .withGroups entries =>
        let cleaned := aiClean summaries entries
        if cleaned.length = 0 then heuristicFallback summaries else cleaned

/-! ### Summarization fallback chain -/

/-- Outcome of a `summarizer.summarize` call: a string result, an object with
a `summary` property, any other value, or a thrown exception. -/
inductive SummarizerResult where
  | str (s : String)
  | objWithSummary (s : String)
  | other
  | thrown
deriving DecidableEq

/-- Outcome of a `languageModel.prompt` call in `summarizeTab`: a string
result, an object with an `output` property, any other value, or a thrown
exception. -/
inductive LMResult where
  | str (s : String)
  | objWithOutput (s : String)
  | other
  | thrown
deriving DecidableEq

/-- The summarizer attempt: only runs on non-empty extracted content; a string
result is returned as is, a truthy `summary` property is returned, anything
else falls through. -/
def summarizerAttempt (content : String) (res : SummarizerResult) : Option String :=
  if content = "" then none
  else
    match res with
    | .str s => some s
    | .objWithSummary s => if s = "" then none else some s
    | .other => none
    | .thrown => none

/-- The language-model attempt: a string result is trimmed and returned, a
truthy `output` property is stringified and trimmed, anything else falls
through. -/
def lmAttempt (res : LMResult) : Option String :=
  match res with
  | .str s => some s.trim
  | .objWithOutput s => if s = "" then none else some s.trim
  | .other => none
  | .thrown => none

/-- `summarizeTab`: summarizer first, then language model, then the static
placeholder derived from the title (`Untitled` when the title is falsy).
`content` abstracts `fetchTabTextContent` for this tab. -/
def summarizeTab (tab : Tab) (summarizer : Option SummarizerResult)
    (languageModel : Option LMResult) (content : String) : String :=
  let title := jsOr tab.title "Untitled"
  match (match summarizer with
         | some res => summarizerAttempt content res
         | none => none) with
  | some s => s
  | none =>
    match (match languageModel with
           | some res => lmAttempt res
           | none => none) with
    | some s => s
    | none => "Summary for " ++ title

/-! ### processTabsAndStore, storage, sessions -/

/-- The skip condition of the tab loop: `!tab.id` (id absent or zero, by JS
truthiness), a pending new-tab URL, or a `chrome://` URL. -/
def tabExcluded (t : Tab) : Bool :=
  (match t.id with | none => true | some i => i == 0)
  || (t.pendingUrl == some "chrome://newtab/")
  || (match t.url with | some u => "chrome://".data.isPrefixOf u.data | none => false)

/-- The record pushed for one kept tab, with `summarize` abstracting the
per-tab result of `summarizeTab` for this run. -/
def mkRecord (summarize : Tab → String) (t : Tab) : SummaryRecord :=
  { tabId := t.id, windowId := t.windowId, url := jsOr t.url "",
    title := jsOr t.title "", favIconUrl := jsOr t.favIconUrl "",
    summary := summarize t }

/-- The summary-building loop of `processTabsAndStore`. -/
def mkSummaries (summarize : Tab → String) : List Tab → List SummaryRecord
  | [] => []
  | t :: rest =>
    if tabExcluded t then mkSummaries summarize rest
    else mkRecord summarize t :: mkSummaries summarize rest

/-- The stored snapshot `{generatedAt, groups}`; `generatedAt` is null in the
initialized default. -/
structure Payload where
  generatedAt : Option Nat
  groups : List (String × List SummaryRecord)
deriving DecidableEq

/-- A saved session record `{id, name, generatedAt, groups}`. -/
structure Session where
  id : String
  name : String
  generatedAt : Option Nat
  groups : List (String × List SummaryRecord)
deriving DecidableEq

/-- The relevant keys of `chrome.storage.local`; `latestGroups` is `none` when
the key is absent. -/
structure Storage where
  latestGroups : Option Payload
  savedSessions : List Session
deriving DecidableEq

/-- `getLatestGroups`: the stored snapshot or the empty default. -/
def getLatestGroups (st : Storage) : Payload :=
  match st.latestGroups with
  | some p => p
  | none => { generatedAt := none, groups := [] }

/-- `processTabsAndStore`, with the tab list, the per-tab summarization
outcome, the grouping interaction outcome and the clock as explicit inputs:
builds the summaries, groups them, stores the payload and returns it. -/
def processTabsAndStore (tabs : List Tab) (summarize : Tab → String)
    (languageModel : Option AIResponse) (now : Nat) (st : Storage) :
    Payload × Storage :=
  let summaries := mkSummaries summarize tabs
  let grouped := groupSummaries summaries languageModel
  let payload : Payload := { generatedAt := some now, groups := grouped }
  (payload, { st with latestGroups := some payload })

/-- `saveSession`: wrap the current snapshot with a timestamp id and a name
(`Session <locale string>` when the given name is falsy) and append it to the
saved-sessions list. -/
def saveSession (sessionName : Option String) (now : Nat) (nowLocale : String)
    (st : Storage) : Session × Storage :=
  let latest := getLatestGroups st
  let session : Session :=
    { id := Nat.repr now, name := jsOr sessionName ("Session " ++ nowLocale),
      generatedAt := latest.generatedAt, groups := latest.groups }
  (session, { st with savedSessions := st.savedSessions ++ [session] })

/-- The storage state written by the `onInstalled` listener. -/
def installedStorage : Storage :=
  { latestGroups := some { generatedAt := none, groups := [] }, savedSessions := [] }

/-! ### Derived classification view of the fallback loop -/

/-- Push an item onto the group selected by a category (the five branches of
the fallback loop, indexed by category). -/
def applyCat : Category → HGroups → SummaryRecord → HGroups
  | .research, g, item => { g with research := g.research ++ [item] }
  | .shopping, g, item => { g with shopping := g.shopping ++ [item] }
  | .entertainment, g, item => { g with entertainment := g.entertainment ++ [item] }
  | .work, g, item => { g with work := g.work ++ [item] }
  | .other, g, item => { g with other := g.other ++ [item] }

/-- The input records classified into a given category, in input order. -/
def catFilter (c : Category) (ss : List SummaryRecord) : List SummaryRecord :=
  ss.filter (fun it => catOf it == c)

/-- A group mapping has no empty-category key: no key is the empty string and
every key maps to a non-empty list. -/
def noEmptyCategories (g : List (String × List SummaryRecord)) : Prop :=
  ∀ p ∈ g, p.1 ≠ "" ∧ p.2 ≠ []

instance noEmptyCategoriesDecidable (g : List (String × List SummaryRecord)) :
    Decidable (noEmptyCategories g) :=
  inferInstanceAs (Decidable (∀ p ∈ g, p.1 ≠ "" ∧ p.2 ≠ []))

/-- Modelled from the claim wording of C9 (spec view, for comparison with
`tabExcluded` from the source): a tab is excluded when its id is missing,
its pendingUrl is the new-tab URL, or its url starts with `chrome://`; a
present id of zero is not excluded here. -/
def claimedExcludedC9 (t : Tab) : Bool :=
  (t.id == none)
  || (t.pendingUrl == some "chrome://newtab/")
  || (match t.url with | some u => "chrome://".data.isPrefixOf u.data | none => false)

/-! ### Concrete fixtures for witnesses and counterexamples -/

/-- Record whose text contains the keyword `arxiv`. -/
def exR : SummaryRecord := ⟨some 1, some 1, "u1", "", "", "arxiv paper"⟩

/-- Record whose text contains the keyword `amazon`. -/
def exS : SummaryRecord := ⟨some 2, some 1, "u2", "", "", "amazon deal"⟩

/-- Record whose text contains the keyword `youtube`. -/
def exE : SummaryRecord := ⟨some 3, some 1, "u3", "", "", "youtube video"⟩

/-- Record matching no keyword, classified `Other`. -/
def rex : SummaryRecord := ⟨some 7, some 1, "https://a", "A", "", "plain"⟩

/-- An AI-returned item matching no input record by url or title. -/
def hallItem : AIItem := ⟨some "H", none, some "https://fake"⟩

/-- A tab with a present id of zero and an ordinary https url. -/
def t0 : Tab := ⟨some 0, some 1, some "https://x", none, some "T", none⟩

/-- A tab that passes the exclusion filter. -/
def t1 : Tab := ⟨some 1, some 1, some "https://x", none, some "T", none⟩

/-- A constant per-tab summarization outcome used in concrete runs. -/
def exSummarize : Tab → String := fun _ => "s"

/-- The record `processTabsAndStore` pushes for `t1` under `exSummarize`. -/
def rec1 : SummaryRecord := mkRecord exSummarize t1

/-- An AI-returned item matching `rex` by both url and title. -/
def itemA : AIItem := ⟨some "A", none, some "https://a"⟩

/-- A storage state with no stored snapshot and no saved sessions. -/
def stEmpty : Storage := ⟨none, []⟩

/-! ### Helper lemmas about the heuristic fallback -/

theorem hStep_eq_applyCat (g : HGroups) (item : SummaryRecord) :
    hStep g item = applyCat (catOf item) g item := by
  simp only [hStep, catOf]
  split_ifs <;> rfl

theorem catFilter_cons (c : Category) (x : SummaryRecord) (rest : List SummaryRecord) :
    catFilter c (x :: rest) =
      if catOf x = c then x :: catFilter c rest else catFilter c rest := by
  simp only [catFilter, List.filter_cons, beq_iff_eq]

theorem foldl_hStep_eq (ss : List SummaryRecord) : ∀ g : HGroups,
    ss.foldl hStep g =
      ⟨g.research ++ catFilter .research ss, g.shopping ++ catFilter .shopping ss,
       g.entertainment ++ catFilter .entertainment ss, g.work ++ catFilter .work ss,
       g.other ++ catFilter .other ss⟩ := by
  induction ss with
  | nil => intro g; simp [catFilter]
  | cons x rest ih =>
    intro g
    rw [List.foldl_cons, hStep_eq_applyCat, ih]
    cases hc : catOf x <;>
      simp [applyCat, catFilter_cons, hc, List.append_assoc]

theorem heuristicEntries_eq (ss : List SummaryRecord) :
    heuristicEntries ss = categoryOrder.map (fun c => (catName c, catFilter c ss)) := by
  simp [heuristicEntries, heuristicGroups, foldl_hStep_eq, categoryOrder, catName]

theorem mem_heuristicEntries {ss : List SummaryRecord} {p : String × List SummaryRecord}
    (hp : p ∈ heuristicEntries ss) : ∃ c, p = (catName c, catFilter c ss) := by
  rw [heuristicEntries_eq] at hp
  obtain ⟨c, _, rfl⟩ := List.mem_map.1 hp
  exact ⟨c, rfl⟩

theorem mem_heuristicFallback {ss : List SummaryRecord} {p : String × List SummaryRecord}
    (hp : p ∈ heuristicFallback ss) :
    (∃ c, p = (catName c, catFilter c ss)) ∧ p.2 ≠ [] := by
  have hmem := List.mem_filter.1 hp
  refine ⟨mem_heuristicEntries hmem.1, ?_⟩
  intro hnil
  have := hmem.2
  rw [hnil] at this
  simp at this

theorem catFilters_join_perm (ss : List SummaryRecord) :
    (catFilter .research ss ++ (catFilter .shopping ss ++ (catFilter .entertainment ss ++
      (catFilter .work ss ++ catFilter .other ss)))).Perm ss := by
  induction ss with
  | nil => simp [catFilter]
  | cons x rest ih =>
    cases hc : catOf x <;> simp only [catFilter_cons, hc, if_pos, if_neg, reduceCtorEq,
      reduceIte, List.cons_append]
    · exact ih.cons x
    · exact List.perm_middle.trans (ih.cons x)
    · exact ((List.Perm.append_left _ List.perm_middle).trans List.perm_middle).trans (ih.cons x)
    · exact ((List.Perm.append_left _ ((List.Perm.append_left _ List.perm_middle).trans
        List.perm_middle)).trans List.perm_middle).trans (ih.cons x)
    · exact ((List.Perm.append_left _ ((List.Perm.append_left _ ((List.Perm.append_left _
        List.perm_middle).trans List.perm_middle)).trans List.perm_middle)).trans
        List.perm_middle).trans (ih.cons x)

theorem join_heuristicEntries_perm (ss : List SummaryRecord) :
    ((heuristicEntries ss).map Prod.snd).flatten.Perm ss := by
  rw [heuristicEntries_eq]
  simpa [categoryOrder] using catFilters_join_perm ss

theorem join_filter_nonempty (l : List (String × List SummaryRecord)) :
    ((l.filter (fun p => p.2.length != 0)).map Prod.snd).flatten = (l.map Prod.snd).flatten := by
  induction l with
  | nil => rfl
  | cons p rest ih =>
    by_cases h : p.2.length = 0
    · have hnil : p.2 = [] := List.length_eq_zero.1 h
      simp [List.filter_cons, h, hnil, ih]
    · simp [List.filter_cons, h, ih]

/-! ### Helper lemmas about the AI grouping path -/

theorem mem_aiClean {summaries : List SummaryRecord} {entries : List (String × AIEntryVal)}
    {p : String × List SummaryRecord} (hp : p ∈ aiClean summaries entries) :
    ∃ items : List AIItem, p.2 = items.map (relink summaries) := by
  induction entries with
  | nil => simp [aiClean] at hp
  | cons e rest ih =>
    obtain ⟨k, v⟩ := e
    cases v with
    | arr items =>
      rw [aiClean] at hp
      rcases List.mem_cons.1 hp with h | h
      · exact ⟨items, by rw [h]⟩
      · exact ih h
    | nonArray => exact ih (by rwa [aiClean] at hp)

theorem groupSummaries_none_eq (ss : List SummaryRecord) :
    groupSummaries ss none = heuristicFallback ss := rfl

theorem groupSummaries_some_eq (ss : List SummaryRecord) (resp : AIResponse) :
    groupSummaries ss (some resp) =
      if ss.length = 0 then heuristicFallback ss
      else
        match resp with
        | .failure => heuristicFallback ss
        | .noGroups => heuristicFallback ss
        | .withGroups entries =>
          let cleaned := aiClean ss entries
          if cleaned.length = 0 then heuristicFallback ss else cleaned := rfl

theorem relink_mem_or_placeholder (summaries : List SummaryRecord) (item : AIItem) :
    relink summaries item ∈ summaries ∨
      ((relink summaries item).tabId = none ∧ (relink summaries item).windowId = none ∧
       (relink summaries item).favIconUrl = "") := by
  unfold relink
  cases h : summaries.find? (matchPred item) with
  | some m => exact Or.inl (List.mem_of_find?_eq_some h)
  | none => exact Or.inr ⟨rfl, rfl, rfl⟩

theorem mem_groupSummaries_cases {summaries : List SummaryRecord} {lm : Option AIResponse}
    {p : String × List SummaryRecord} {r : SummaryRecord}
    (hp : p ∈ groupSummaries summaries lm) (hr : r ∈ p.2) :
    r ∈ summaries ∨ (r.tabId = none ∧ r.windowId = none ∧ r.favIconUrl = "") := by
  have hfb : ∀ q : String × List SummaryRecord, q ∈ heuristicFallback summaries →
      ∀ x ∈ q.2, x ∈ summaries := by
    intro q hq x hx
    obtain ⟨⟨c, rfl⟩, -⟩ := mem_heuristicFallback hq
    exact List.mem_of_mem_filter hx
  match lm with
  | none => exact Or.inl (hfb p hp r hr)
  | some resp =>
    rw [groupSummaries_some_eq] at hp
    split at hp
    · exact Or.inl (hfb p hp r hr)
    · match resp with
      | .failure => exact Or.inl (hfb p hp r hr)
      | .noGroups => exact Or.inl (hfb p hp r hr)
      | .withGroups entries =>
        simp only at hp
        split at hp
        · exact Or.inl (hfb p hp r hr)
        · obtain ⟨items, hsnd⟩ := mem_aiClean hp
          rw [hsnd] at hr
          obtain ⟨item, -, rfl⟩ := List.mem_map.1 hr
          exact relink_mem_or_placeholder summaries item

/-! ### Helper lemmas about `Nat.repr` -/

theorem toDigitsCore_ne_nil (b : Nat) : ∀ (fuel n : Nat) (ds : List Char), ds ≠ [] →
    Nat.toDigitsCore b fuel n ds ≠ [] := by
  intro fuel
  induction fuel with
  | zero => intro n ds h; exact h
  | succ fuel ih =>
    intro n ds _
    simp only [Nat.toDigitsCore]
    split
    · exact List.cons_ne_nil _ _
    · exact ih _ _ (List.cons_ne_nil _ _)

theorem toDigits_ne_nil (n : Nat) : Nat.toDigits 10 n ≠ [] := by
  unfold Nat.toDigits
  simp only [Nat.toDigitsCore]
  split
  · exact List.cons_ne_nil _ _
  · exact toDigitsCore_ne_nil 10 n (n / 10) _ (List.cons_ne_nil _ _)

theorem repr_ne_empty (n : Nat) : Nat.repr n ≠ "" := by
  unfold Nat.repr
  intro h
  have hdata := congrArg String.data h
  simp only [List.asString] at hdata
  exact toDigits_ne_nil n hdata

/-! ### Claim theorems -/

/-- Claim C1, counterexample: with the AI path active, a returned item that
matches no input record is not discarded; the output group keeps a
synthesized record that is not among the inputs. -/
theorem aiGrouping_unmatched_kept_counterexample :
    ¬ (∀ p ∈ groupSummaries [rex]
          (some (AIResponse.withGroups [("X", AIEntryVal.arr [hallItem])])),
        ∀ r ∈ p.2, r ∈ [rex]) := by decide

/-- Claim C1, amended: in the AI-driven path each returned item is re-linked
to the first input record matching by URL or title when one exists (so such
records retain their original tabId, url and title); an unmatched item is
kept, not discarded, as a placeholder record with null tabId, absent windowId
and empty favicon. Hence every record of every output group is either an
input record or such a placeholder. -/
theorem aiGrouping_relink (summaries : List SummaryRecord) (lm : Option AIResponse)
    (p : String × List SummaryRecord) (r : SummaryRecord) (item : AIItem) (m : SummaryRecord)
    (hp : p ∈ groupSummaries summaries lm) (hr : r ∈ p.2)
    (hm : summaries.find? (matchPred item) = some m) :
    (r ∈ summaries ∨ (r.tabId = none ∧ r.windowId = none ∧ r.favIconUrl = "")) ∧
    relink summaries item = m ∧ m ∈ summaries :=
  ⟨mem_groupSummaries_cases hp hr, by simp [relink, hm],
   List.mem_of_find?_eq_some hm⟩

theorem aiGrouping_relink_witness :
    ((rex ∈ [rex] ∨ (rex.tabId = none ∧ rex.windowId = none ∧ rex.favIconUrl = "")) ∧
      relink [rex] itemA = rex ∧ rex ∈ [rex]) :=
  aiGrouping_relink [rex] none ("Other", [rex]) rex itemA rex (by decide) (by decide)
    (by decide)

/-- Claim C2, counterexample: with the AI capability present, a response whose
`groups` object has an empty-string key with an empty array is returned as is,
so the output has an empty key mapping to an empty list. -/
theorem grouping_empty_key_counterexample :
    ¬ noEmptyCategories (groupSummaries [rex]
        (some (AIResponse.withGroups [("", AIEntryVal.arr [])]))) := by decide

/-- Claim C2, amended: the heuristic fallback grouping (and hence the result
of `groupSummaries` whenever the AI capability is absent) contains no
empty-category key: every key maps to a non-empty list and no key is the
empty string; the AI path instead copies keys and lists from the response. -/
theorem fallback_noEmptyCategories (ss : List SummaryRecord) :
    noEmptyCategories (heuristicFallback ss) ∧ noEmptyCategories (groupSummaries ss none) := by
  have hfb : noEmptyCategories (heuristicFallback ss) := by
    intro p hp
    obtain ⟨⟨c, rfl⟩, hne⟩ := mem_heuristicFallback hp
    refine ⟨?_, hne⟩
    cases c <;> simp [catName]
  exact ⟨hfb, hfb⟩

theorem fallback_noEmptyCategories_witness :
    ("Other", ([rex] : List SummaryRecord)).1 ≠ "" ∧
      ("Other", ([rex] : List SummaryRecord)).2 ≠ [] :=
  (fallback_noEmptyCategories [rex]).1 ("Other", [rex]) (by decide)

/-- Claim C3: the fallback loop assigns each record to exactly one of the five
fixed categories, by first-match-wins keyword classification on the
lowercased `title summary` text with `Other` as catch-all; on the three
example summaries the records land in Research, Shopping and Entertainment
respectively. -/
theorem fallback_firstMatch_and_example :
    (∀ ss : List SummaryRecord,
        heuristicEntries ss = categoryOrder.map (fun c => (catName c, catFilter c ss))) ∧
    heuristicFallback [exR, exS, exE] =
      [("Research", [exR]), ("Shopping", [exS]), ("Entertainment", [exE])] :=
  ⟨heuristicEntries_eq, by decide⟩

theorem fallback_firstMatch_and_example_witness :
    heuristicEntries [rex] = categoryOrder.map (fun c => (catName c, catFilter c [rex])) :=
  fallback_firstMatch_and_example.1 [rex]

/-- Claim C4: when the AI grouping interaction fails (thrown exception or
invalid JSON), yields no usable `groups` object, or yields a `groups` object
with no array-valued key, `groupSummaries` returns exactly the keyword
fallback, a function of the input summaries alone. -/
theorem groupSummaries_malformed_fallback (ss : List SummaryRecord) (lm : Option AIResponse)
    (h : lm = some AIResponse.failure ∨ lm = some AIResponse.noGroups ∨
         ∃ entries, lm = some (AIResponse.withGroups entries) ∧ aiClean ss entries = []) :
    groupSummaries ss lm = heuristicFallback ss := by
  obtain rfl | rfl | ⟨entries, rfl, hclean⟩ := h
  · rw [groupSummaries_some_eq]; split <;> rfl
  · rw [groupSummaries_some_eq]; split <;> rfl
  · rw [groupSummaries_some_eq]
    split
    · rfl
    · simp [hclean]

theorem groupSummaries_malformed_fallback_witness :
    groupSummaries [rex] (some AIResponse.failure) = heuristicFallback [rex] :=
  groupSummaries_malformed_fallback [rex] (some AIResponse.failure) (Or.inl rfl)

/-- Claim C5: a processing run stores its payload as the single current
snapshot; after two runs the stored value is exactly the second payload,
which is determined by the second run inputs alone, and the saved-sessions
list is untouched. -/
theorem process_run_overwrites (tabs1 tabs2 : List Tab) (f1 f2 : Tab → String)
    (lm1 lm2 : Option AIResponse) (now1 now2 : Nat) (st : Storage) :
    ((processTabsAndStore tabs2 f2 lm2 now2
        (processTabsAndStore tabs1 f1 lm1 now1 st).2).2).latestGroups
      = some (processTabsAndStore tabs2 f2 lm2 now2
          (processTabsAndStore tabs1 f1 lm1 now1 st).2).1 ∧
    (processTabsAndStore tabs2 f2 lm2 now2 (processTabsAndStore tabs1 f1 lm1 now1 st).2).1
      = { generatedAt := some now2, groups := groupSummaries (mkSummaries f2 tabs2) lm2 } ∧
    ((processTabsAndStore tabs2 f2 lm2 now2
        (processTabsAndStore tabs1 f1 lm1 now1 st).2).2).savedSessions = st.savedSessions :=
  ⟨rfl, rfl, rfl⟩

theorem process_run_overwrites_witness :
    ((processTabsAndStore [t1] exSummarize none 2
        (processTabsAndStore [] exSummarize none 1 stEmpty).2).2).latestGroups
      = some (processTabsAndStore [t1] exSummarize none 2
          (processTabsAndStore [] exSummarize none 1 stEmpty).2).1 ∧
    (processTabsAndStore [t1] exSummarize none 2
        (processTabsAndStore [] exSummarize none 1 stEmpty).2).1
      = { generatedAt := some 2, groups := groupSummaries (mkSummaries exSummarize [t1]) none } ∧
    ((processTabsAndStore [t1] exSummarize none 2
        (processTabsAndStore [] exSummarize none 1 stEmpty).2).2).savedSessions
      = stEmpty.savedSessions :=
  process_run_overwrites [] [t1] exSummarize exSummarize none none 1 2 stEmpty

/-- Claim C6: `saveSession` only appends: the prior saved sessions are kept
unchanged in order with exactly one new entry at the end, the snapshot is
untouched, and two invocations append two entries. -/
theorem saveSession_appends_only (name1 name2 : Option String) (now1 now2 : Nat)
    (loc1 loc2 : String) (st : Storage) :
    (saveSession name1 now1 loc1 st).2.savedSessions
        = st.savedSessions ++ [(saveSession name1 now1 loc1 st).1] ∧
    (saveSession name1 now1 loc1 st).2.latestGroups = st.latestGroups ∧
    (saveSession name2 now2 loc2 (saveSession name1 now1 loc1 st).2).2.savedSessions
        = st.savedSessions ++ [(saveSession name1 now1 loc1 st).1,
            (saveSession name2 now2 loc2 (saveSession name1 now1 loc1 st).2).1] := by
  refine ⟨rfl, rfl, ?_⟩
  simp [saveSession]

theorem saveSession_appends_only_witness :
    (saveSession (some "a") 1 "x" stEmpty).2.savedSessions
        = stEmpty.savedSessions ++ [(saveSession (some "a") 1 "x" stEmpty).1] ∧
    (saveSession (some "a") 1 "x" stEmpty).2.latestGroups = stEmpty.latestGroups ∧
    (saveSession (some "b") 2 "y" (saveSession (some "a") 1 "x" stEmpty).2).2.savedSessions
        = stEmpty.savedSessions ++ [(saveSession (some "a") 1 "x" stEmpty).1,
            (saveSession (some "b") 2 "y" (saveSession (some "a") 1 "x" stEmpty).2).1] :=
  saveSession_appends_only (some "a") (some "b") 1 2 "x" "y" stEmpty

/-- Claim C7: when no processing run has stored a snapshot (the key is absent
or holds the initialized default), the session record saved has empty groups
and its id is the decimal timestamp string, which is non-empty. -/
theorem saveSession_empty_snapshot (name : Option String) (now : Nat) (loc : String)
    (st : Storage)
    (h : st.latestGroups = none ∨
         st.latestGroups = some { generatedAt := none, groups := [] }) :
    (saveSession name now loc st).1.groups = [] ∧
    (saveSession name now loc st).1.id = Nat.repr now ∧
    (saveSession name now loc st).1.id ≠ "" := by
  refine ⟨?_, rfl, repr_ne_empty now⟩
  rcases h with h | h <;> simp [saveSession, getLatestGroups, h]

theorem saveSession_empty_snapshot_witness :
    (saveSession (some "n") 5 "loc" stEmpty).1.groups = [] ∧
    (saveSession (some "n") 5 "loc" stEmpty).1.id = Nat.repr 5 ∧
    (saveSession (some "n") 5 "loc" stEmpty).1.id ≠ "" :=
  saveSession_empty_snapshot (some "n") 5 "loc" stEmpty (Or.inl rfl)

/-- Claim C8: `summarizeTab` tries the summarizer first (on non-empty
content a string result is returned as is), then the prompting capability
(a string result is trimmed), and with both capabilities absent returns the
static placeholder built from the title, `Untitled` when the title is falsy. -/
theorem summarizeTab_order (tab : Tab) (content s : String) (lm : Option LMResult)
    (h : content ≠ "") :
    summarizeTab tab none none content = "Summary for " ++ jsOr tab.title "Untitled" ∧
    (tab.title = none → summarizeTab tab none none content = "Summary for Untitled") ∧
    summarizeTab tab (some (SummarizerResult.str s)) lm content = s ∧
    summarizeTab tab none (some (LMResult.str s)) content = s.trim := by
  refine ⟨rfl, ?_, ?_, rfl⟩
  · intro ht; simp [summarizeTab, jsOr, ht]
  · simp [summarizeTab, summarizerAttempt, h]

theorem summarizeTab_order_witness :
    summarizeTab t1 none none "c" = "Summary for " ++ jsOr t1.title "Untitled" ∧
    (t1.title = none → summarizeTab t1 none none "c" = "Summary for Untitled") ∧
    summarizeTab t1 (some (SummarizerResult.str "sss")) none "c" = "sss" ∧
    summarizeTab t1 none (some (LMResult.str "sss")) "c" = "sss".trim :=
  summarizeTab_order t1 "c" "sss" none (by decide)

/-- Claim C9, counterexample: a tab with the present id zero and an ordinary
https url is excluded by the loop (JS `!tab.id` is true for zero), while the
claimed filter, which only excludes a missing id, would keep it. -/
theorem tab_id_zero_counterexample :
    ¬ (mkSummaries exSummarize [t0]
        = ([t0].filter (fun t => !claimedExcludedC9 t)).map (mkRecord exSummarize)) := by
  decide

/-- Claim C9, amended: `processTabsAndStore` excludes exactly the tabs whose
id is missing or zero, whose pendingUrl is the new-tab URL, or whose url
starts with `chrome://`; every other tab contributes exactly one record, and
every record in every group of the stored snapshot is one of these records
or an AI placeholder with null tabId. -/
theorem process_excludes_tabs (f : Tab → String) (tabs : List Tab)
    (lm : Option AIResponse) (now : Nat) (st : Storage) :
    mkSummaries f tabs = (tabs.filter (fun t => !tabExcluded t)).map (mkRecord f) ∧
    ∀ p ∈ ((processTabsAndStore tabs f lm now st).2.latestGroups.getD
        { generatedAt := none, groups := [] }).groups,
      ∀ r ∈ p.2, r ∈ mkSummaries f tabs ∨ r.tabId = none := by
  constructor
  · induction tabs with
    | nil => rfl
    | cons t rest ih =>
      cases h : tabExcluded t <;> simp [mkSummaries, h, ih]
  · intro p hp r hr
    have hp2 : p ∈ groupSummaries (mkSummaries f tabs) lm := hp
    rcases mem_groupSummaries_cases hp2 hr with hmem | hph
    · exact Or.inl hmem
    · exact Or.inr hph.1

theorem process_excludes_tabs_witness :
    mkSummaries exSummarize [t1]
        = ([t1].filter (fun t => !tabExcluded t)).map (mkRecord exSummarize) ∧
    (rec1 ∈ mkSummaries exSummarize [t1] ∨ rec1.tabId = none) :=
  ⟨(process_excludes_tabs exSummarize [t1] none 3 stEmpty).1,
   (process_excludes_tabs exSummarize [t1] none 3 stEmpty).2 ("Other", [rec1]) (by decide)
     rec1 (by decide)⟩

/-- Claim C10: the heuristic fallback output is a partition of its input:
concatenating its group lists in the fixed category order yields every input
record exactly once, and each group preserves the input order of its
records. -/
theorem heuristic_partition (ss : List SummaryRecord) :
    ((heuristicFallback ss).map Prod.snd).flatten.Perm ss ∧
    ∀ p ∈ heuristicFallback ss, p.2.Sublist ss := by
  constructor
  · rw [heuristicFallback, join_filter_nonempty]
    exact join_heuristicEntries_perm ss
  · intro p hp
    obtain ⟨⟨c, rfl⟩, -⟩ := mem_heuristicFallback hp
    exact List.filter_sublist ss

theorem heuristic_partition_witness :
    ((heuristicFallback [exR]).map Prod.snd).flatten.Perm [exR] ∧
      (("Research", ([exR] : List SummaryRecord)) : String × List SummaryRecord).2.Sublist [exR] :=
  ⟨(heuristic_partition [exR]).1, (heuristic_partition [exR]).2 ("Research", [exR]) (by decide)⟩

end TabWhisperer
